import Mathlib

/-!
Verification of the DUCC_Ranking service (FastAPI + SQLAlchemy) against its
natural-language specification.  The Python code is shallowly embedded:

* `app/models.py`   → `Player` (ratings as `Option Int`; the DB stores floats
  but every rating value in the code is an integer parsed from JSON or HTML);
* `app/retry.py`    → `async_retry` (attempt outcomes given as a function from
  the attempt index to `Except`);
* `app/services.py` → the three provider fetchers and `get_all_ratings`;
* `app/schemas.py`  → the `fide_id` validators of `PlayerCreate`/`PlayerUpdate`;
* `app/main.py`     → `update_player_ratings`, `update_fide_rating`, the
  refresh branch of `get_player_ratings`, `create_player`,
  `get_players_by_rating`, `reassign_ids`;
* `app/sheet_sync.py` → `get_sheet_data` row parsing and `sync_sheet_data`.

Network calls are modelled by their outcomes: `Except Unit r` is a call that
either raised (after the retry wrapper gave up) or returned `r`.  Database
commits/rollbacks are modelled as pure state passing; database-level failures
(which the code only logs and rolls back) are outside the model except where a
claim is about them, in which case an explicit failure flag is threaded.
-/

deriving instance DecidableEq for Except

namespace DUCC

/-- Result of scraping `https://ratings.fide.com/profile/{fide_id}`
(`ChessService.get_fide_rating` in `app/services.py`).  The `name` and
`country` fields of the Python dict are irrelevant to every claim and are
omitted. -/
structure FideData where
  fide_id : Int
  standard_rating : Option Int
  rapid_rating : Option Int
  blitz_rating : Option Int
deriving DecidableEq, Repr

/-- A row of the `players` table (`app/models.py`).  Ratings are nullable. -/
structure Player where
  id : Nat
  name : String
  fide_id : Option Int
  chesscom_username : Option String
  lichess_username : Option String
  fide_rating : Option Int := none
  chesscom_rating : Option Int := none
  lichess_rating : Option Int := none
  highest_rating : Option Int := none
deriving DecidableEq, Repr

/-- Python truthiness of an optional integer (`if player.fide_id:` etc.):
`None` and `0` are falsy. -/
def intTruthy : Option Int → Bool
  | none => false
  | some v => v != 0

/-- Python truthiness of an optional string (`if player.chesscom_username:`):
`None` and the empty string are falsy. -/
def strTruthy : Option String → Bool
  | none => false
  | some s => s != ""

/-! ## `app/retry.py` — `async_retry`

The wrapped coroutine is modelled by `f : Nat → Except E A`, giving the
outcome of the call made at loop index `attempt` (`0`-based).  The decorator
is used with the default `exceptions=(Exception,)`, so every raised exception
is caught.  `retryLoop f attempt remaining` is the loop
`for attempt in range(retries + 1)` with `remaining` iterations left after the
current one; it returns the propagated result together with the number of
calls made.  The sleeping/backoff between attempts has no effect on the
result and is not modelled. -/

def retryLoop {E A : Type} (f : Nat → Except E A) (attempt : Nat) :
    Nat → Except E A × Nat
  | 0 => (f attempt, attempt + 1)
  | remaining + 1 =>
    match f attempt with
    | .ok a => (.ok a, attempt + 1)
    | .error _ => retryLoop f (attempt + 1) remaining

/-- The `wrapper` produced by `async_retry(retries=retries, ...)`: run the
loop starting at attempt `0` with `retries` further iterations allowed (the
Python loop is `for attempt in range(retries + 1)`).  On the last iteration a
caught exception breaks out of the loop and `last_exception` — the exception
of that final attempt — is re-raised, which is the `Except.error` value of
`f attempt` itself. -/
def async_retry {E A : Type} (retries : Nat) (f : Nat → Except E A) :
    Except E A × Nat :=
  retryLoop f 0 retries

/-! ## `app/services.py` — provider fetchers

`get_chesscom_rating` / `get_lichess_rating` are modelled from the point
where the HTTP status and the parsed rating are known: `rating` is
`data.get('chess_rapid', {}).get('last', {}).get('rating', 0)` (so the JSON
default `0` is already applied).  A non-200/404 status raises. -/

def get_chesscom_rating (status : Nat) (rating : Int) : Except String (Option Int) :=
  if status = 200 then
    .ok (if rating > 0 then some rating else none)
  else if status = 404 then
    .ok none
  else
    .error "HTTP error"

def get_lichess_rating (status : Nat) (rating : Int) : Except String (Option Int) :=
  if status = 200 then
    .ok (if rating > 0 then some rating else none)
  else if status = 404 then
    .ok none
  else
    .error "HTTP error"

/-- Largest element of a list of ratings (Python `max(ratings)` on a
non-empty list), `none` on the empty list. -/
def maxOfRatings : List Int → Option Int
  | [] => none
  | r :: rs => some (rs.foldl max r)

/-- The scrape outcome feeding `get_fide_highest_rating`: the wrapped
`get_fide_rating` either raises (`error`), returns `None` (markup drift), or
returns the profile data. -/
def get_fide_highest_rating (fetch : Except Unit (Option FideData)) : Option Int :=
  match fetch with
  | .error _ => none
  | .ok none => none
  | .ok (some pd) =>
    match maxOfRatings [pd.standard_rating.getD 0, pd.rapid_rating.getD 0,
        pd.blitz_rating.getD 0] with
    | none => none
    | some m => if m > 0 then some m else none

/-! ## `app/schemas.py` — `fide_id` validators -/

/-- The shared range test raised as `ValueError('Invalid FIDE ID format...')`
by both validators. -/
def fideIdRangeCheck (v : Int) : Except String Int :=
  if v < 100000 ∨ v > 99999999 then
    .error "Invalid FIDE ID format (must be between 100000 and 99999999)"
  else
    .ok v

/-- `PlayerCreate.validate_fide_id`: the `ValueError` propagates as a
validation error. -/
def PlayerCreate_validate_fide_id (v : Option Int) : Except String (Option Int) :=
  match v with
  | none => .ok none
  | some n =>
    match fideIdRangeCheck n with
    | .ok m => .ok (some m)
    | .error e => .error e

/-- `PlayerUpdate.validate_fide_id`: the range check sits inside
`try: ... except (ValueError, TypeError): return None`, so the `ValueError`
it raises is caught by the validator itself and the field is silently
dropped. -/
def PlayerUpdate_validate_fide_id (v : Option Int) : Except String (Option Int) :=
  match v with
  | none => .ok none
  | some n =>
    match fideIdRangeCheck n with
    | .ok m => .ok (some m)
    | .error _ => .ok none

/-! ## `app/main.py` — rating updates

`update_player_ratings` and `update_fide_rating` mutate a `Player` given the
outcomes of the provider calls.  An `Except.error` outcome is a call that
raised after the retry wrapper gave up; `.ok none` is a call that returned
`None`. -/

/-- The non-null ratings of a player, in the order the code lists them:
`[r for r in [fide_rating, chesscom_rating, lichess_rating] if r is not None]`. -/
def ratingsOf (p : Player) : List Int :=
  [p.fide_rating, p.chesscom_rating, p.lichess_rating].filterMap id

/-- The `highest_rating` recomputation shared by `update_player_ratings` and
the refresh branch: `if ratings: player.highest_rating = max(ratings)` —
note that nothing happens when the list is empty. -/
def recomputeHighest (p : Player) : Player :=
  match maxOfRatings (ratingsOf p) with
  | none => p
  | some m => { p with highest_rating := some m }

/-- The variant in `update_fide_rating`, which additionally filters
`r > 0`. -/
def recomputeHighestPos (p : Player) : Player :=
  match maxOfRatings ((ratingsOf p).filter (fun r => decide (0 < r))) with
  | none => p
  | some m => { p with highest_rating := some m }

/-- One platform branch of `update_player_ratings`: the fetch is attempted
only if the username is truthy, a raising fetch is caught and logged, and the
rating is assigned only when the fetched value is truthy. -/
def platformBranch (user : Option String) (fetch : Except Unit (Option Int))
    (old : Option Int) : Option Int :=
  if strTruthy user then
    match fetch with
    | .error _ => old
    | .ok r => if intTruthy r then r else old
  else old

/-- `update_player_ratings(player, db)` (`app/main.py:73`).  Each platform
fetch has its own `try/except`, then `highest_rating` is recomputed; the
function returns `True` (the outer `except` only concerns database errors,
which are outside the model). -/
def update_player_ratings (p : Player) (ccFetch lcFetch : Except Unit (Option Int)) :
    Player × Bool :=
  let p1 := { p with chesscom_rating := platformBranch p.chesscom_username ccFetch p.chesscom_rating }
  let p2 := { p1 with lichess_rating := platformBranch p1.lichess_username lcFetch p1.lichess_rating }
  (recomputeHighest p2, true)

/-- `update_fide_rating(player, db)` (`app/main.py:112`).  Returns the new
state and the function's boolean result.  A raising scrape is caught
(`return False`); falsy profile data or a missing/zero rapid rating also
`return False` without touching the player; otherwise `fide_rating` is set
to the rapid rating and `highest_rating` recomputed over the positive
ratings. -/
def update_fide_rating (p : Player) (fideFetch : Except Unit (Option FideData)) :
    Player × Bool :=
  if ¬ intTruthy p.fide_id then (p, false)
  else
    match fideFetch with
    | .error _ => (p, false)
    | .ok none => (p, false)
    | .ok (some fd) =>
      match fd.rapid_rating with
      | none => (p, false)
      | some rr =>
        if rr = 0 then (p, false)
        else (recomputeHighestPos { p with fide_rating := some rr }, true)

/-- Tail of the refresh branch of `get_player_ratings` (`app/main.py:311`),
from the Lichess fetch on: the fetch is *not* individually guarded, so a
raising call aborts the whole `try` block (`except ...: pass`) and the final
`highest_rating` recomputation is skipped. -/
def refreshFromLichess (p : Player) (lcFetch : Except Unit (Option Int)) : Player :=
  if strTruthy p.lichess_username then
    match lcFetch with
    | .error _ => p
    | .ok lc => recomputeHighest (if intTruthy lc then { p with lichess_rating := lc } else p)
  else recomputeHighest p

/-- The per-player refresh branch of `get_player_ratings` (`app/main.py:292`):
FIDE first (its exceptions are swallowed inside `update_fide_rating`), then
the Chess.com and Lichess fetches, whose exceptions abort the rest of the
block, then the `highest_rating` recomputation. -/
def refresh_ratings (p : Player) (fideFetch : Except Unit (Option FideData))
    (ccFetch lcFetch : Except Unit (Option Int)) : Player :=
  let p1 := if intTruthy p.fide_id then (update_fide_rating p fideFetch).1 else p
  if strTruthy p1.chesscom_username then
    match ccFetch with
    | .error _ => p1
    | .ok cc =>
      refreshFromLichess (if intTruthy cc then { p1 with chesscom_rating := cc } else p1) lcFetch
  else refreshFromLichess p1 lcFetch

/-- The specification's invariant: `highest_rating` equals the maximum of the
non-null per-platform ratings and is null when all three are null. -/
abbrev ratingsInvariant (p : Player) : Prop :=
  p.highest_rating = maxOfRatings (ratingsOf p)

/-- All stored ratings are strictly positive — true of every reachable state,
since the fetchers only ever deliver positive ratings. -/
abbrev posRatings (p : Player) : Prop :=
  ∀ r ∈ ratingsOf p, 0 < r

/-! ## `app/main.py` — ranking order

`get_players_by_rating` is the query
`ORDER BY highest_rating DESC NULLS LAST, id ASC`. -/

/-- The (non-strict, total) order used by the `ORDER BY` clause: higher
`highest_rating` first, `NULL` ratings last, ties broken by ascending `id`. -/
def rankLE (p q : Player) : Bool :=
  match p.highest_rating, q.highest_rating with
  | some a, some b => decide (b < a) || (decide (a = b) && decide (p.id ≤ q.id))
  | some _, none => true
  | none, some _ => false
  | none, none => decide (p.id ≤ q.id)

/-- `get_players_by_rating(db)` (`app/main.py:398`) over the stored player
list. -/
def get_players_by_rating (ps : List Player) : List Player :=
  ps.mergeSort rankLE

/-- Strict version of the ranking order, used to state sortedness: strictly
descending `highest_rating` with nulls last, and ascending `id` on ties. -/
def rankOrder (p q : Player) : Prop :=
  match p.highest_rating, q.highest_rating with
  | some a, some b => b < a ∨ (a = b ∧ p.id < q.id)
  | some _, none => True
  | none, some _ => False
  | none, none => p.id < q.id

/-- The reinsertion loop of `reassign_ids`:
`for rank, player in enumerate(players, 1): player.id = rank`. -/
def assignIdsFrom (k : Nat) : List Player → List Player
  | [] => []
  | p :: rest => { p with id := k } :: assignIdsFrom (k + 1) rest

/-- `reassign_ids(db)` (`app/main.py:407`), successful path: the table is
rebuilt from the ranking order with ids `1..n`. -/
def reassign_ids (ps : List Player) : List Player :=
  assignIdsFrom 1 (get_players_by_rating ps)

/-! ## `app/main.py` — `create_player` -/

/-- The first validation in `create_player`: at least one identifier. -/
def hasIdentifier (inp : Player) : Bool :=
  intTruthy inp.fide_id || strTruthy inp.chesscom_username || strTruthy inp.lichess_username

/-- The four duplicate checks of `create_player` (`app/main.py:184-192`), in
source order, returning the detail of the first `HTTPException(400, ...)`
raised, if any.  A check on `fide_id` or a username only runs when the
submitted value is truthy. -/
def dupCheck (dbp : List Player) (inp : Player) : Option String :=
  if intTruthy inp.fide_id && dbp.any (fun q => q.fide_id == inp.fide_id) then
    some "FIDE ID already exists"
  else if strTruthy inp.chesscom_username
      && dbp.any (fun q => q.chesscom_username == inp.chesscom_username) then
    some "Chess.com username already exists"
  else if strTruthy inp.lichess_username
      && dbp.any (fun q => q.lichess_username == inp.lichess_username) then
    some "Lichess username already exists"
  else if dbp.any (fun q => q.name == inp.name) then
    some "Player name already exists"
  else none

/-- The rank comparison inside `create_player`'s insertion loop:
`p.highest_rating is not None and (db_player.highest_rating is None or
p.highest_rating > db_player.highest_rating)`. -/
def strictlyAbove (q pnew : Player) : Bool :=
  match q.highest_rating with
  | none => false
  | some qh =>
    match pnew.highest_rating with
    | none => true
    | some nh => decide (nh < qh)

/-- A fresh `models.Player(**player.dict())` under the temporary id assigned
by `db.flush()` (SQLite assigns `max(id) + 1`). -/
def freshPlayer (dbp : List Player) (inp : Player) : Player :=
  { id := (dbp.map Player.id).foldr max 0 + 1, name := inp.name, fide_id := inp.fide_id,
    chesscom_username := inp.chesscom_username, lichess_username := inp.lichess_username }

/-- The rating-update phase of `create_player`: FIDE first, then the
platform ratings (`app/main.py:199-210`), applied to the freshly flushed
player. -/
def createdPlayer (dbp : List Player) (inp : Player)
    (fideFetch : Except Unit (Option FideData)) (ccFetch lcFetch : Except Unit (Option Int)) :
    Player :=
  let p0 := freshPlayer dbp inp
  let p1 := if intTruthy p0.fide_id then (update_fide_rating p0 fideFetch).1 else p0
  if strTruthy p1.chesscom_username || strTruthy p1.lichess_username then
    (update_player_ratings p1 ccFetch lcFetch).1
  else p1

/-- The insertion-rank loop of `create_player` (`app/main.py:216-220`): one
more than the number of stored players strictly outranking the new one. -/
def newRank (dbp : List Player) (p2 : Player) : Nat :=
  1 + ((get_players_by_rating (dbp ++ [p2])).filter
    (fun q => decide (q.id ≠ p2.id) && strictlyAbove q p2)).length

/-- The id shift `UPDATE players SET id = id + 1 WHERE id >= :new_rank AND
id != :temp_id`, guarded by `if new_rank <= len(players)` — `players` here
includes the flushed new row, hence `dbp.length + 1`.  `id` is the table's
`INTEGER PRIMARY KEY` (SQLite rowid, uniqueness enforced per row), and the
flushed new row already occupies id `max stored id + 1`; whenever the
`UPDATE` matches a stored row, the largest matched id — the maximal stored
id — must move onto `max + 1`, the flushed row's id, which the `WHERE`
clause keeps in place, so the statement deterministically raises
`sqlite3.IntegrityError` (a UNIQUE violation on the primary key).  It
succeeds only when it matches no stored row, in which case it changes no
ids. -/
def shiftIds (k : Nat) (dbp : List Player) : Except String (List Player) :=
  if k ≤ dbp.length + 1 then
    if dbp.any (fun q => decide (k ≤ q.id)) then
      .error "UNIQUE constraint failed: players.id"
    else
      .ok (dbp.map (fun q => if k ≤ q.id then { q with id := q.id + 1 } else q))
  else .ok dbp

/-- `create_player` (`app/main.py:173`), modelled as a function of the stored
players, the validated request body (identifier fields of a `Player` whose
rating fields are ignored) and the provider-call outcomes.  It returns the
endpoint's result together with the resulting stored player list; every
error path — the validation and duplicate `HTTPException`s as well as the
`IntegrityError` raised by the id-shift `UPDATE` — lands in the outer
`except Exception`, which rolls back (leaving the store unchanged) and
re-raises `HTTPException(400, str(e))`. -/
def create_player (dbp : List Player) (inp : Player)
    (fideFetch : Except Unit (Option FideData)) (ccFetch lcFetch : Except Unit (Option Int)) :
    Except (Nat × String) Player × List Player :=
  if ¬ hasIdentifier inp then
    (.error (400, "At least one identifier (FIDE ID, Chess.com username, or Lichess username) is required"), dbp)
  else
    match dupCheck dbp inp with
    | some d => (.error (400, d), dbp)
    | none =>
      let p2 := createdPlayer dbp inp fideFetch ccFetch lcFetch
      match shiftIds (newRank dbp p2) dbp with
      | .error e => (.error (400, e), dbp)
      | .ok shifted =>
        let pfin := { p2 with id := newRank dbp p2 }
        (.ok pfin, shifted ++ [pfin])

/-- The identity fields of a player — name, FIDE ID, platform usernames —
which rating updates and id shifts never touch. -/
def idFields (p : Player) : String × Option Int × Option String × Option String :=
  (p.name, p.fide_id, p.chesscom_username, p.lichess_username)

/-- Two players have distinct identity fields wherever both are non-null. -/
def fieldsDistinct (x y : String × Option Int × Option String × Option String) : Prop :=
  x.1 ≠ y.1
  ∧ (x.2.1 = none ∨ x.2.1 ≠ y.2.1)
  ∧ (x.2.2.1 = none ∨ x.2.2.1 ≠ y.2.2.1)
  ∧ (x.2.2.2 = none ∨ x.2.2.2 ≠ y.2.2.2)

/-- The uniqueness invariant of the spec: FIDE ID, each platform username and
display name are pairwise distinct among players (null fields excepted). -/
def uniqueFields (l : List Player) : Prop :=
  l.Pairwise (fun a b => fieldsDistinct (idFields a) (idFields b))

/-- What `schemas.PlayerCreate` guarantees about a request body that reached
the endpoint: a present `fide_id` is in `100000..99999999` (in particular
nonzero) and present usernames are non-empty. -/
def validatedCreate (inp : Player) : Bool :=
  (match inp.fide_id with
   | none => true
   | some n => decide (100000 ≤ n) && decide (n ≤ 99999999))
  && inp.chesscom_username != some ""
  && inp.lichess_username != some ""

/-- The submitted player collides with a stored one on a (non-null)
identifier or on the display name. -/
def duplicateWith (dbp : List Player) (inp : Player) : Prop :=
  (∃ q ∈ dbp, inp.fide_id ≠ none ∧ q.fide_id = inp.fide_id)
  ∨ (∃ q ∈ dbp, inp.chesscom_username ≠ none ∧ q.chesscom_username = inp.chesscom_username)
  ∨ (∃ q ∈ dbp, inp.lichess_username ≠ none ∧ q.lichess_username = inp.lichess_username)
  ∨ (∃ q ∈ dbp, q.name = inp.name)

/-! ## `app/services.py` — `get_all_ratings`

Each requested provider call is given by its outcome; `none` means the
corresponding identifier was not supplied (falsy), so no task was created.
`asyncio.gather(..., return_exceptions=True)` delivers either the raised
exception (`Except.error`) or the return value. -/

structure AllRatings where
  chess_com : Option Int
  lichess : Option Int
  fide : Option FideData
  highest_overall : Int
deriving DecidableEq, Repr

/-- Processing of one platform task result: the field is set when the result
is neither an exception nor `None`, and `highest_overall` is raised to it
when it is larger. -/
def applyPlatform (res : Except Unit (Option Int)) (field : Option Int) (hi : Int) :
    Option Int × Int :=
  match res with
  | .error _ => (field, hi)
  | .ok none => (field, hi)
  | .ok (some v) => (some v, if v > hi then v else hi)

/-- Processing of the FIDE task result: the field receives the whole profile
dict, and only a truthy `rapid_rating` contributes to `highest_overall`. -/
def applyFide (res : Except Unit (Option FideData)) (field : Option FideData) (hi : Int) :
    Option FideData × Int :=
  match res with
  | .error _ => (field, hi)
  | .ok none => (field, hi)
  | .ok (some fd) =>
    (some fd,
      match fd.rapid_rating with
      | none => hi
      | some r => if r ≠ 0 then max hi r else hi)

/-- `ChessService.get_all_ratings` (`app/services.py:210`): results start as
all-`None` with `highest_overall = 0`; tasks are processed in creation order
(chess_com, lichess, fide). -/
def get_all_ratings (cc lc : Option (Except Unit (Option Int)))
    (fd : Option (Except Unit (Option FideData))) : AllRatings :=
  let r0 : AllRatings := { chess_com := none, lichess := none, fide := none, highest_overall := 0 }
  let r1 := match cc with
            | none => r0
            | some res =>
              let s := applyPlatform res r0.chess_com r0.highest_overall
              { r0 with chess_com := s.1, highest_overall := s.2 }
  let r2 := match lc with
            | none => r1
            | some res =>
              let s := applyPlatform res r1.lichess r1.highest_overall
              { r1 with lichess := s.1, highest_overall := s.2 }
  match fd with
  | none => r2
  | some res =>
    let s := applyFide res r2.fide r2.highest_overall
    { r2 with fide := s.1, highest_overall := s.2 }

/-- The rating a platform task contributed, if any: the task was requested,
did not raise, and did not return `None`. -/
def fetchedPlatform : Option (Except Unit (Option Int)) → Option Int
  | some (.ok (some v)) => some v
  | _ => none

/-- The rapid rating the FIDE task contributed, if any: the task was
requested, did not raise, returned truthy data, and that data holds a truthy
`rapid_rating`. -/
def fetchedFideRapid : Option (Except Unit (Option FideData)) → Option Int
  | some (.ok (some fdata)) =>
    match fdata.rapid_rating with
    | none => none
    | some r => if r ≠ 0 then some r else none
  | _ => none

/-- The profile data stored in the `fide` field, if any. -/
def fetchedFideData : Option (Except Unit (Option FideData)) → Option FideData
  | some (.ok (some fdata)) => some fdata
  | _ => none

/-! ## `app/sheet_sync.py` -/

/-- Python `str.strip()`: whitespace removed from both ends.  Written at the
character level (rather than with `String.trim`, whose byte-position
recursion the kernel cannot evaluate) so that concrete sheets compute. -/
def pyStrip (s : String) : String :=
  ((s.data.dropWhile Char.isWhitespace).reverse.dropWhile Char.isWhitespace).reverse.asString

/-- Value of a decimal digit character. -/
def digitVal? (c : Char) : Option Nat :=
  if '0' ≤ c ∧ c ≤ '9' then some (c.toNat - 48) else none

/-- Accumulating decimal parse of a digit string. -/
def digitsToNatAux : List Char → Nat → Option Nat
  | [], acc => some acc
  | c :: cs, acc =>
    match digitVal? c with
    | none => none
    | some d => digitsToNatAux cs (acc * 10 + d)

/-- Python `int(s)` on an already-stripped string: an optional sign followed
by at least one decimal digit, `none` where Python raises `ValueError`. -/
def pyInt? (s : String) : Option Int :=
  match s.data with
  | [] => none
  | '-' :: ds =>
    match ds with
    | [] => none
    | _ => (digitsToNatAux ds 0).map (fun n => -(n : Int))
  | '+' :: ds =>
    match ds with
    | [] => none
    | _ => (digitsToNatAux ds 0).map (fun n => (n : Int))
  | ds => (digitsToNatAux ds 0).map (fun n => (n : Int))

/-- Parsing of one sheet row inside `get_sheet_data`:
`name = row[0].strip() if row[0] else None`;
`fide_id = int(row[1].strip()) if len(row) > 1 and row[1].strip() else None`;
the row is kept only `if name`.  An empty row raises `IndexError` and an
unparseable FIDE cell raises `ValueError`; both are caught and skip the
row. -/
def rowPlayer (row : List String) : Option (String × Option Int) :=
  match row with
  | [] => none
  | c0 :: rest =>
    let fideParse : Except Unit (Option Int) :=
      match rest with
      | [] => .ok none
      | c1 :: _ =>
        if pyStrip c1 = "" then .ok none
        else
          match pyInt? (pyStrip c1) with
          | some n => .ok (some n)
          | none => .error ()
    match fideParse with
    | .error _ => none
    | .ok fid =>
      if c0 = "" then none
      else if pyStrip c0 = "" then none
      else some (pyStrip c0, fid)

/-- The row loop of `get_sheet_data` over the fetched cell values: the header
row (`values[1:]`) is skipped, then each row is parsed. -/
def get_sheet_rows (values : List (List String)) : List (String × Option Int) :=
  match values with
  | [] => []
  | _ :: rest => rest.filterMap rowPlayer

/-- The counters reported by `sync_sheet_data`. -/
structure SyncReport where
  success_count : Nat
  error_count : Nat
  total_rows : Nat
deriving DecidableEq, Repr

/-- A player inserted by the sheet import: only `name` and `fide_id` are
populated.  Ids are assigned by the autoincrementing primary key, `1..n` on
the freshly cleared table. -/
def mkSheetPlayer (nm : String) (fid : Option Int) : Player :=
  { id := 0, name := nm, fide_id := fid, chesscom_username := none, lichess_username := none }

/-- `sync_sheet_data` (`app/sheet_sync.py:104`): empty parsed data raises
`ValueError` → `HTTPException(400, ...)` before anything is touched;
otherwise all stored players are deleted and the parsed rows inserted inside
a transaction.  `txnFails` injects a database error during the transaction,
whose handler rolls everything back and re-raises, reaching the outer
`except Exception` → `HTTPException(500, ...)`. -/
def sync_sheet_data (dbp : List Player) (values : List (List String)) (txnFails : Bool) :
    Except (Nat × String) SyncReport × List Player :=
  let data := get_sheet_rows values
  if data.isEmpty then
    (.error (400, "No data found in Google Sheet"), dbp)
  else if txnFails then
    (.error (500, "Failed to sync data from Google Sheet"), dbp)
  else
    let kept := data.filter (fun r => r.1 != "")
    (.ok { success_count := kept.length,
           error_count := (data.filter (fun r => r.1 == "")).length,
           total_rows := data.length },
     assignIdsFrom 1 (kept.map (fun r => mkSheetPlayer r.1 r.2)))

/-! ## Concrete data used to exercise the model -/

/-- A stored player with only a Chess.com rating, satisfying the
highest-rating invariant. -/
def demoRefreshPlayer : Player :=
  { id := 1, name := "a", fide_id := none, chesscom_username := some "x",
    lichess_username := some "y", chesscom_rating := some 1000,
    highest_rating := some 1000 }

/-- A FIDE profile with a standard rating but no rapid rating. -/
def demoFideStd : FideData :=
  { fide_id := 123456, standard_rating := some 2200, rapid_rating := none,
    blitz_rating := none }

/-- A sheet whose second data row has a name but an unparseable FIDE cell. -/
def demoSheet : List (List String) :=
  [["Name", "FIDE ID"], ["Bob", "2345"], ["Alice", "abc"]]

/-- A creation request carrying only a Chess.com username. -/
def demoAlice : Player :=
  { id := 0, name := "Alice", fide_id := none, chesscom_username := some "alice1",
    lichess_username := none }

/-- A stored player. -/
def demoBob : Player :=
  { id := 1, name := "Bob", fide_id := some 123456, chesscom_username := some "bob1",
    lichess_username := none, fide_rating := some 1500, highest_rating := some 1500 }

/-- Another stored player, ranked above `demoBob`. -/
def demoCarol : Player :=
  { id := 2, name := "Carol", fide_id := none, chesscom_username := none,
    lichess_username := some "carol1", lichess_rating := some 1800,
    highest_rating := some 1800 }

/-- A stored player with no ratings (all rating columns null) holding
primary key 1, as the sheet import produces. -/
def demoDana : Player :=
  { id := 1, name := "Dana", fide_id := none, chesscom_username := some "dana1",
    lichess_username := none }

/-- A creation request that duplicates `demoBob`'s display name. -/
def demoBobDup : Player :=
  { id := 0, name := "Bob", fide_id := none, chesscom_username := some "bobby2",
    lichess_username := none }

/-! # Theorems

## Claim C2 — `async_retry` call count and propagation -/

theorem retryLoop_all_fail {E A : Type} (f : Nat → Except E A) :
    ∀ (remaining attempt : Nat),
      (∀ i, attempt ≤ i → i ≤ attempt + remaining → (f i).isOk = false) →
      retryLoop f attempt remaining = (f (attempt + remaining), attempt + remaining + 1)
  | 0, attempt, _ => by simp [retryLoop]
  | remaining + 1, attempt, h => by
    have h0 : (f attempt).isOk = false := h attempt le_rfl (by omega)
    cases hfa : f attempt with
    | ok a => rw [hfa] at h0; simp [Except.isOk, Except.toBool] at h0
    | error e =>
      have ih := retryLoop_all_fail f remaining (attempt + 1)
        (fun i h1 h2 => h i (by omega) (by omega))
      rw [retryLoop, hfa, ih]
      have : attempt + 1 + remaining = attempt + (remaining + 1) := by omega
      rw [this]

theorem retryLoop_first_success {E A : Type} (f : Nat → Except E A) :
    ∀ (remaining attempt k : Nat), attempt ≤ k → k ≤ attempt + remaining →
      (∀ i, attempt ≤ i → i < k → (f i).isOk = false) → (f k).isOk = true →
      retryLoop f attempt remaining = (f k, k + 1)
  | 0, attempt, k, hak, hka, _, hk => by
    have : k = attempt := by omega
    subst this
    simp [retryLoop]
  | remaining + 1, attempt, k, hak, hka, hfail, hk => by
    rcases Nat.eq_or_lt_of_le hak with heq | hlt
    · subst heq
      cases hfa : f attempt with
      | ok a => simp [retryLoop, hfa]
      | error e => rw [hfa] at hk; simp [Except.isOk, Except.toBool] at hk
    · have h0 : (f attempt).isOk = false := hfail attempt le_rfl hlt
      cases hfa : f attempt with
      | ok a => rw [hfa] at h0; simp [Except.isOk, Except.toBool] at h0
      | error e =>
        have ih := retryLoop_first_success f remaining (attempt + 1) k (by omega) (by omega)
          (fun i h1 h2 => hfail i (by omega) h2) hk
        rw [retryLoop, hfa, ih]

/-- Claim C2 is false as stated: with retry count 3 — the value configured on
every fetcher in `app/services.py` — and a wrapped function that raises on
every call, `async_retry` calls the function 4 times, not 3 (the loop is
`for attempt in range(retries + 1)`). -/
theorem async_retry_call_count_cex :
    (async_retry 3 (fun _ => (Except.error 7 : Except Nat Nat))).2 = 4
      ∧ (4 : Nat) ≠ 3 := by
  exact ⟨rfl, by decide⟩

/-- Claim C2 (amended): with configured retry count `retries`, the wrapper
calls the wrapped function exactly `retries + 1` times when every call
raises a caught exception — one initial attempt plus `retries` retries — and
then re-raises the exception of the final attempt; if the first success is
attempt `k` (0-based), the wrapper returns that attempt's result after
exactly `k + 1` calls and makes no further calls. -/
theorem async_retry_spec {E A : Type} (retries : Nat) (f : Nat → Except E A) :
    ((∀ i, i ≤ retries → (f i).isOk = false) →
      async_retry retries f = (f retries, retries + 1))
    ∧ (∀ k, k ≤ retries → (∀ i, i < k → (f i).isOk = false) → (f k).isOk = true →
      async_retry retries f = (f k, k + 1)) := by
  constructor
  · intro h
    have := retryLoop_all_fail f retries 0 (fun i h1 h2 => h i (by omega))
    simpa [async_retry] using this
  · intro k hk hfail hok
    exact retryLoop_first_success f retries 0 k (Nat.zero_le k) (by omega)
      (fun i _ h2 => hfail i h2) hok

theorem async_retry_spec_witness :
    async_retry 3 (fun _ => (Except.error 7 : Except Nat Nat)) = (Except.error 7, 4)
    ∧ async_retry 3 (fun i => if i = 2 then (Except.ok 5 : Except Nat Nat) else .error 7)
        = (Except.ok 5, 3) := by
  constructor
  · exact (async_retry_spec 3 (fun _ => (Except.error 7 : Except Nat Nat))).1
      (fun i _ => rfl)
  · exact (async_retry_spec 3
      (fun i => if i = 2 then (Except.ok 5 : Except Nat Nat) else .error 7)).2 2
      (by decide) (fun i hi => by interval_cases i <;> rfl) rfl

/-! ## Claim C8 — fetchers return strictly positive ratings or `None` -/

/-- Claim C8: every rating a fetcher returns is strictly positive.
`get_chesscom_rating`/`get_lichess_rating` return `None` on a zero or absent
rating (the JSON default is 0) and on HTTP 404; `get_fide_highest_rating`
returns `None` when all three FIDE ratings are absent or zero; no fetcher
ever returns the rating value 0. -/
theorem fetchers_positive_or_none :
    (∀ status r v, get_chesscom_rating status r = .ok (some v) → 0 < v)
    ∧ (∀ status r v, get_lichess_rating status r = .ok (some v) → 0 < v)
    ∧ (∀ f v, get_fide_highest_rating f = some v → 0 < v)
    ∧ (∀ r, get_chesscom_rating 404 r = .ok none ∧ get_lichess_rating 404 r = .ok none)
    ∧ (get_chesscom_rating 200 0 = .ok none ∧ get_lichess_rating 200 0 = .ok none)
    ∧ (∀ fd : FideData, fd.standard_rating.getD 0 = 0 → fd.rapid_rating.getD 0 = 0 →
        fd.blitz_rating.getD 0 = 0 → get_fide_highest_rating (.ok (some fd)) = none)
    ∧ (∀ status r, get_chesscom_rating status r ≠ .ok (some 0))
    ∧ (∀ f, get_fide_highest_rating f ≠ some 0) := by
  have hcc : ∀ status r v, get_chesscom_rating status r = .ok (some v) → 0 < v := by
    intro status r v h
    unfold get_chesscom_rating at h
    split_ifs at h <;> simp_all
  have hlc : ∀ status r v, get_lichess_rating status r = .ok (some v) → 0 < v := by
    intro status r v h
    unfold get_lichess_rating at h
    split_ifs at h <;> simp_all
  have hfide : ∀ f v, get_fide_highest_rating f = some v → 0 < v := by
    intro f v h
    match f with
    | .error e => simp [get_fide_highest_rating] at h
    | .ok none => simp [get_fide_highest_rating] at h
    | .ok (some pd) =>
      simp only [get_fide_highest_rating, maxOfRatings] at h
      split_ifs at h with h1 <;> simp_all <;> omega
  refine ⟨hcc, hlc, hfide, ?_, ?_, ?_, ?_, ?_⟩
  · intro r; exact ⟨by simp [get_chesscom_rating], by simp [get_lichess_rating]⟩
  · exact ⟨by simp [get_chesscom_rating], by simp [get_lichess_rating]⟩
  · intro fd h1 h2 h3
    simp only [get_fide_highest_rating, maxOfRatings, h1, h2, h3]
    norm_num
  · intro status r h
    have := hcc status r 0 h
    omega
  · intro f h
    have := hfide f 0 h
    omega

theorem fetchers_positive_or_none_witness :
    (0 : Int) < 1500
    ∧ get_chesscom_rating 404 3 = .ok none
    ∧ get_fide_highest_rating (.ok (some
        { fide_id := 1, standard_rating := none, rapid_rating := some 0,
          blitz_rating := none })) = none := by
  refine ⟨?_, ?_, ?_⟩
  · exact fetchers_positive_or_none.1 200 1500 1500 rfl
  · exact (fetchers_positive_or_none.2.2.2.1 3).1
  · exact fetchers_positive_or_none.2.2.2.2.2.1
      { fide_id := 1, standard_rating := none, rapid_rating := some 0, blitz_rating := none }
      rfl rfl rfl

/-! ## Claim C9 — `fide_id` validation differs between create and update -/

/-- Claim C9: for an out-of-range FIDE ID, `PlayerUpdate.validate_fide_id`
silently replaces it with `None` — its own `except (ValueError, TypeError)`
catches the `ValueError` it just raised — while `PlayerCreate.validate_fide_id`
lets the same `ValueError` escape as a validation error. -/
theorem fide_id_validation_divergence (v : Int) (h : v < 100000 ∨ v > 99999999) :
    PlayerUpdate_validate_fide_id (some v) = .ok none
    ∧ PlayerCreate_validate_fide_id (some v)
        = .error "Invalid FIDE ID format (must be between 100000 and 99999999)" := by
  have hr : fideIdRangeCheck v
      = .error "Invalid FIDE ID format (must be between 100000 and 99999999)" := by
    unfold fideIdRangeCheck
    exact if_pos h
  exact ⟨by simp [PlayerUpdate_validate_fide_id, hr], by simp [PlayerCreate_validate_fide_id, hr]⟩

theorem fide_id_validation_divergence_witness :
    PlayerUpdate_validate_fide_id (some 5) = .ok none
    ∧ PlayerCreate_validate_fide_id (some 5)
        = .error "Invalid FIDE ID format (must be between 100000 and 99999999)" :=
  fide_id_validation_divergence 5 (Or.inl (by decide))

/-! ## Claim C4 — `get_all_ratings` aggregation -/

/-- Claim C4 is false as stated: with only the FIDE fetch requested and
succeeding with a profile whose standard rating is 2200 (rapid absent),
`highest_overall` is 0, not the maximum of the successfully fetched provider
ratings — only the FIDE *rapid* rating ever contributes, and the starting
value is 0 rather than null. -/
theorem get_all_ratings_cex :
    (get_all_ratings none none (some (.ok (some demoFideStd)))).fide = some demoFideStd
    ∧ demoFideStd.standard_rating = some 2200
    ∧ (get_all_ratings none none (some (.ok (some demoFideStd)))).highest_overall = 0
    ∧ (0 : Int) ≠ 2200 := by
  exact ⟨rfl, rfl, rfl, by decide⟩

set_option maxHeartbeats 2000000 in
/-- Claim C4 (amended): `highest_overall` equals the maximum of 0, the
successfully fetched Chess.com and Lichess ratings, and the FIDE rapid
rating when the FIDE fetch succeeded with truthy data and a truthy rapid
rating — FIDE standard and blitz ratings are ignored.  The `chess_com` and
`lichess` fields hold the fetched rating and are null exactly when the
provider was not requested, its fetch raised, or its fetch returned `None`;
the `fide` field likewise holds the fetched profile data. -/
theorem get_all_ratings_spec (cc lc : Option (Except Unit (Option Int)))
    (fd : Option (Except Unit (Option FideData))) :
    (get_all_ratings cc lc fd).chess_com = fetchedPlatform cc
    ∧ (get_all_ratings cc lc fd).lichess = fetchedPlatform lc
    ∧ (get_all_ratings cc lc fd).fide = fetchedFideData fd
    ∧ (get_all_ratings cc lc fd).highest_overall =
        max (max (max 0 ((fetchedPlatform cc).getD 0)) ((fetchedPlatform lc).getD 0))
          ((fetchedFideRapid fd).getD 0) := by
  rcases cc with _ | (e1 | (_ | v1)) <;>
    rcases lc with _ | (e2 | (_ | v2)) <;>
      rcases fd with _ | (e3 | (_ | ⟨fi, fs, fr, fb⟩)) <;>
        (try rcases fr with _ | r) <;>
          refine ⟨rfl, rfl, rfl, ?_⟩ <;>
            simp only [get_all_ratings, applyPlatform, applyFide, fetchedPlatform,
              fetchedFideRapid] <;>
            (try split_ifs) <;>
            simp only [Option.getD_some, Option.getD_none, sup_eq_max, Int.max_def] <;>
            (try split_ifs) <;>
            omega

/-! ## Claim C1 — the highest-rating invariant -/

theorem maxOfRatings_eq_none {l : List Int} : maxOfRatings l = none ↔ l = [] := by
  cases l <;> simp [maxOfRatings]

theorem mem_ratingsOf {r : Int} {p : Player} :
    r ∈ ratingsOf p ↔
      p.fide_rating = some r ∨ p.chesscom_rating = some r ∨ p.lichess_rating = some r := by
  simp [ratingsOf, List.mem_filterMap, eq_comm]

theorem ratingsOf_nil_iff {p : Player} :
    ratingsOf p = [] ↔
      p.fide_rating = none ∧ p.chesscom_rating = none ∧ p.lichess_rating = none := by
  cases hf : p.fide_rating <;> cases hc : p.chesscom_rating <;>
    cases hl : p.lichess_rating <;> simp [ratingsOf, hf, hc, hl]

theorem ratingsOf_recomputeHighest (q : Player) :
    ratingsOf (recomputeHighest q) = ratingsOf q := by
  unfold recomputeHighest
  split <;> rfl

theorem ratingsOf_recomputeHighestPos (q : Player) :
    ratingsOf (recomputeHighestPos q) = ratingsOf q := by
  unfold recomputeHighestPos
  split <;> rfl

/-- When the player has at least one rating, the recomputation establishes
the invariant outright. -/
theorem recomputeHighest_inv_of_ne {q : Player} (h : ratingsOf q ≠ []) :
    ratingsInvariant (recomputeHighest q) := by
  cases hq : maxOfRatings (ratingsOf q) with
  | none => exact absurd (maxOfRatings_eq_none.mp hq) h
  | some m =>
    show (recomputeHighest q).highest_rating = maxOfRatings (ratingsOf (recomputeHighest q))
    rw [ratingsOf_recomputeHighest, hq]
    unfold recomputeHighest
    rw [hq]

/-- When the player has no rating, the recomputation is the identity — this
is where the invariant needs the pre-state: the stale `highest_rating` is
kept. -/
theorem recomputeHighest_eq_of_nil {q : Player} (h : ratingsOf q = []) :
    recomputeHighest q = q := by
  unfold recomputeHighest
  rw [maxOfRatings_eq_none.mpr h]

/-- Invariant preservation through a recomputation: the recomputed player
may have gained ratings relative to a pre-state `p` satisfying the
invariant, as long as `highest_rating` was untouched and no rating was
erased. -/
theorem recompute_preserves {p q : Player} (hh : q.highest_rating = p.highest_rating)
    (hnil : ratingsOf q = [] → ratingsOf p = []) (hinv : ratingsInvariant p) :
    ratingsInvariant (recomputeHighest q) := by
  by_cases hq : ratingsOf q = []
  · rw [recomputeHighest_eq_of_nil hq]
    show q.highest_rating = maxOfRatings (ratingsOf q)
    rw [hh, hinv, hnil hq, hq]
  · exact recomputeHighest_inv_of_ne hq

/-- A platform branch that ends with `None` started with `None`: the branch
never erases a rating. -/
theorem platformBranch_none {u : Option String} {f : Except Unit (Option Int)}
    {old : Option Int} (h : platformBranch u f old = none) : old = none := by
  unfold platformBranch at h
  split_ifs at h with hu
  · cases f with
    | error e => exact h
    | ok r =>
      cases r with
      | none => simpa [intTruthy] using h
      | some v =>
        by_cases hv : v = 0
        · subst hv; simpa [intTruthy] using h
        · simp [intTruthy, hv] at h
  · exact h

/-- A platform branch that ends with a rating either kept the old one or
took it from a successful truthy fetch. -/
theorem platformBranch_some {u : Option String} {f : Except Unit (Option Int)}
    {old : Option Int} {w : Int} (h : platformBranch u f old = some w) :
    old = some w ∨ f = .ok (some w) := by
  unfold platformBranch at h
  split_ifs at h with hu
  · cases f with
    | error e => exact .inl h
    | ok r =>
      cases r with
      | none => exact .inl (by simpa [intTruthy] using h)
      | some v =>
        by_cases hv : v = 0
        · subst hv; exact .inl (by simpa [intTruthy] using h)
        · simp only [intTruthy, bne_iff_ne, ne_eq, hv, not_false_eq_true, if_true] at h
          exact .inr (by rw [h])
  · exact .inl h

/-- Unfolding of `update_player_ratings` to its final state. -/
theorem update_player_ratings_eq (p : Player) (ccFetch lcFetch : Except Unit (Option Int)) :
    update_player_ratings p ccFetch lcFetch =
      (recomputeHighest
        { p with
          chesscom_rating := platformBranch p.chesscom_username ccFetch p.chesscom_rating,
          lichess_rating := platformBranch p.lichess_username lcFetch p.lichess_rating },
       true) := rfl

/-- `update_player_ratings` preserves the invariant and rating positivity. -/
theorem update_player_ratings_preserves {p : Player}
    {ccFetch lcFetch : Except Unit (Option Int)}
    (hinv : ratingsInvariant p) (hpos : posRatings p)
    (hcc : ∀ v, ccFetch = .ok (some v) → 0 < v)
    (hlc : ∀ v, lcFetch = .ok (some v) → 0 < v) :
    ratingsInvariant (update_player_ratings p ccFetch lcFetch).1
    ∧ posRatings (update_player_ratings p ccFetch lcFetch).1 := by
  rw [update_player_ratings_eq]
  dsimp only
  constructor
  · exact recompute_preserves (p := p)
      (q := { p with
        chesscom_rating := platformBranch p.chesscom_username ccFetch p.chesscom_rating,
        lichess_rating := platformBranch p.lichess_username lcFetch p.lichess_rating })
      rfl
      (fun hq => by
        rw [ratingsOf_nil_iff] at hq ⊢
        exact ⟨hq.1, platformBranch_none hq.2.1, platformBranch_none hq.2.2⟩)
      hinv
  · intro r hr
    rw [ratingsOf_recomputeHighest, mem_ratingsOf] at hr
    rcases hr with h | h | h
    · exact hpos r (mem_ratingsOf.mpr (.inl h))
    · rcases platformBranch_some h with hold | hfet
      · exact hpos r (mem_ratingsOf.mpr (.inr (.inl hold)))
      · exact hcc r hfet
    · rcases platformBranch_some h with hold | hfet
      · exact hpos r (mem_ratingsOf.mpr (.inr (.inr hold)))
      · exact hlc r hfet

/-- `update_fide_rating` preserves the invariant and rating positivity,
given that the scraper only produces positive rapid ratings. -/
theorem update_fide_rating_preserves {p : Player}
    {fideFetch : Except Unit (Option FideData)}
    (hinv : ratingsInvariant p) (hpos : posRatings p)
    (hfd : ∀ fd rr, fideFetch = .ok (some fd) → fd.rapid_rating = some rr → 0 < rr) :
    ratingsInvariant (update_fide_rating p fideFetch).1
    ∧ posRatings (update_fide_rating p fideFetch).1 := by
  rcases fideFetch with e | (_ | fd)
  · have h1 : (update_fide_rating p (.error e)).1 = p := by
      unfold update_fide_rating; split_ifs <;> rfl
    rw [h1]; exact ⟨hinv, hpos⟩
  · have h1 : (update_fide_rating p (.ok none)).1 = p := by
      unfold update_fide_rating; split_ifs <;> rfl
    rw [h1]; exact ⟨hinv, hpos⟩
  · rcases hrr : fd.rapid_rating with _ | rr
    · have h1 : (update_fide_rating p (.ok (some fd))).1 = p := by
        unfold update_fide_rating; split_ifs <;> simp [hrr]
      rw [h1]; exact ⟨hinv, hpos⟩
    · by_cases hz : rr = 0
      · have h1 : (update_fide_rating p (.ok (some fd))).1 = p := by
          unfold update_fide_rating; split_ifs <;> simp [hrr, hz]
        rw [h1]; exact ⟨hinv, hpos⟩
      · by_cases hid : intTruthy p.fide_id
        case neg =>
          have h1 : (update_fide_rating p (.ok (some fd))).1 = p := by
            unfold update_fide_rating
            rw [if_pos (by simp [hid])]
          rw [h1]; exact ⟨hinv, hpos⟩
        case pos =>
          have heq : (update_fide_rating p (.ok (some fd))).1
              = recomputeHighestPos { p with fide_rating := some rr } := by
            unfold update_fide_rating
            rw [if_neg (by simp [hid])]
            simp [hrr, hz]
          rw [heq]
          have hrrpos : 0 < rr := hfd fd rr rfl hrr
          have hpos' : posRatings { p with fide_rating := some rr } := by
            intro r hr
            rw [mem_ratingsOf] at hr
            rcases hr with h | h | h
            · cases Option.some.inj h; exact hrrpos
            · exact hpos r (mem_ratingsOf.mpr (.inr (.inl h)))
            · exact hpos r (mem_ratingsOf.mpr (.inr (.inr h)))
          have hne : ratingsOf { p with fide_rating := some rr } ≠ [] := by
            intro hq
            rw [ratingsOf_nil_iff] at hq
            exact Option.noConfusion hq.1
          have hfilter : (ratingsOf { p with fide_rating := some rr }).filter
              (fun r => decide (0 < r)) = ratingsOf { p with fide_rating := some rr } :=
            List.filter_eq_self.mpr (fun r hr => by simpa using hpos' r hr)
          constructor
          · show ratingsInvariant (recomputeHighestPos { p with fide_rating := some rr })
            unfold recomputeHighestPos
            rw [hfilter]
            exact recomputeHighest_inv_of_ne hne
          · intro r hr
            rw [ratingsOf_recomputeHighestPos] at hr
            exact hpos' r hr

/-- The recomputation establishes the invariant whenever the pre-state's
`highest_rating` is null in the no-ratings case — even if the invariant was
broken by an intermediate assignment. -/
theorem recompute_establishes {q : Player}
    (hbase : ratingsOf q = [] → q.highest_rating = none) :
    ratingsInvariant (recomputeHighest q) := by
  by_cases hq : ratingsOf q = []
  · rw [recomputeHighest_eq_of_nil hq]
    show q.highest_rating = maxOfRatings (ratingsOf q)
    rw [hq, hbase hq]
    rfl
  · exact recomputeHighest_inv_of_ne hq

/-- The Lichess tail of the refresh branch ends with a recomputation unless
the Lichess fetch raises, so it restores the invariant provided that fetch
does not raise. -/
theorem refreshFromLichess_preserves {p : Player} {lcFetch : Except Unit (Option Int)}
    (hbase : ratingsOf p = [] → p.highest_rating = none)
    (hpos : posRatings p)
    (hlc : ∀ v, lcFetch = .ok (some v) → 0 < v)
    (hok : ∀ e, lcFetch ≠ .error e) :
    ratingsInvariant (refreshFromLichess p lcFetch)
    ∧ posRatings (refreshFromLichess p lcFetch) := by
  unfold refreshFromLichess
  split_ifs with hu
  · rcases lcFetch with e | lc
    · exact absurd rfl (hok e)
    · dsimp only
      by_cases ht : intTruthy lc
      · rw [if_pos ht]
        rcases lc with _ | v
        · simp [intTruthy] at ht
        · constructor
          · apply recomputeHighest_inv_of_ne
            intro hq
            rw [ratingsOf_nil_iff] at hq
            exact Option.noConfusion hq.2.2
          · intro r hr
            rw [ratingsOf_recomputeHighest, mem_ratingsOf] at hr
            rcases hr with h | h | h
            · exact hpos r (mem_ratingsOf.mpr (.inl h))
            · exact hpos r (mem_ratingsOf.mpr (.inr (.inl h)))
            · cases Option.some.inj h
              exact hlc v rfl
      · rw [if_neg ht]
        constructor
        · exact recompute_establishes hbase
        · intro r hr
          rw [ratingsOf_recomputeHighest] at hr
          exact hpos r hr
  · constructor
    · exact recompute_establishes hbase
    · intro r hr
      rw [ratingsOf_recomputeHighest] at hr
      exact hpos r hr

/-- The refresh branch of `get_player_ratings` preserves the invariant
provided the Lichess fetch does not raise (if it raises after a Chess.com
rating was assigned, the final recomputation is skipped). -/
theorem refresh_ratings_preserves {p : Player}
    {fideFetch : Except Unit (Option FideData)} {ccFetch lcFetch : Except Unit (Option Int)}
    (hinv : ratingsInvariant p) (hpos : posRatings p)
    (hfd : ∀ fd rr, fideFetch = .ok (some fd) → fd.rapid_rating = some rr → 0 < rr)
    (hcc : ∀ v, ccFetch = .ok (some v) → 0 < v)
    (hlc : ∀ v, lcFetch = .ok (some v) → 0 < v)
    (hok : ∀ e, lcFetch ≠ .error e) :
    ratingsInvariant (refresh_ratings p fideFetch ccFetch lcFetch)
    ∧ posRatings (refresh_ratings p fideFetch ccFetch lcFetch) := by
  unfold refresh_ratings
  have h1 : ratingsInvariant (if intTruthy p.fide_id then (update_fide_rating p fideFetch).1 else p)
      ∧ posRatings (if intTruthy p.fide_id then (update_fide_rating p fideFetch).1 else p) := by
    split_ifs with h
    · exact update_fide_rating_preserves hinv hpos hfd
    · exact ⟨hinv, hpos⟩
  set p1 := if intTruthy p.fide_id then (update_fide_rating p fideFetch).1 else p with hp1
  obtain ⟨hinv1, hpos1⟩ := h1
  have hbase1 : ratingsOf p1 = [] → p1.highest_rating = none := by
    intro hq
    rw [hinv1, hq]
    rfl
  dsimp only
  split_ifs with hcu
  · rcases ccFetch with e | cc
    · exact ⟨hinv1, hpos1⟩
    · dsimp only
      by_cases ht : intTruthy cc
      · rw [if_pos ht]
        rcases cc with _ | v
        · simp [intTruthy] at ht
        · apply refreshFromLichess_preserves ?_ ?_ hlc hok
          · intro hq
            rw [ratingsOf_nil_iff] at hq
            exact absurd hq.2.1 (Option.noConfusion)
          · intro r hr
            rw [mem_ratingsOf] at hr
            rcases hr with h | h | h
            · exact hpos1 r (mem_ratingsOf.mpr (.inl h))
            · cases Option.some.inj h
              exact hcc v rfl
            · exact hpos1 r (mem_ratingsOf.mpr (.inr (.inr h)))
      · rw [if_neg ht]
        exact refreshFromLichess_preserves hbase1 hpos1 hlc hok
  · exact refreshFromLichess_preserves hbase1 hpos1 hlc hok

/-- Claim C1 is false as stated: starting from a player satisfying the
invariant, the refresh branch with a successful Chess.com fetch (1200) and a
raising Lichess fetch assigns `chesscom_rating = 1200` but aborts before the
`highest_rating` recomputation, leaving `highest_rating = 1000`, which is
not the maximum of the non-null per-platform ratings. -/
theorem refresh_ratings_invariant_cex :
    ratingsInvariant demoRefreshPlayer
    ∧ (refresh_ratings demoRefreshPlayer (.ok none) (.ok (some 1200))
        (.error ())).chesscom_rating = some 1200
    ∧ (refresh_ratings demoRefreshPlayer (.ok none) (.ok (some 1200))
        (.error ())).highest_rating = some 1000
    ∧ ¬ ratingsInvariant
        (refresh_ratings demoRefreshPlayer (.ok none) (.ok (some 1200)) (.error ())) := by
  exact ⟨by decide, rfl, rfl, by decide⟩

/-- Claim C1 (amended): on a player whose stored state satisfies the
invariant (with all stored ratings positive, as the fetchers guarantee),
`update_player_ratings` and `update_fide_rating` always re-establish
`highest_rating = max` of the non-null per-platform ratings (null when all
are null), and the refresh branch of `get_player_ratings` does so provided
its Lichess fetch does not raise; a Lichess fetch that raises after a
Chess.com assignment can leave `highest_rating` stale (see the
counterexample). -/
theorem ratings_invariant_preserved (p : Player)
    (fideFetch : Except Unit (Option FideData)) (ccFetch lcFetch : Except Unit (Option Int))
    (hinv : ratingsInvariant p) (hpos : posRatings p)
    (hfd : ∀ fd rr, fideFetch = .ok (some fd) → fd.rapid_rating = some rr → 0 < rr)
    (hcc : ∀ v, ccFetch = .ok (some v) → 0 < v)
    (hlc : ∀ v, lcFetch = .ok (some v) → 0 < v) :
    (ratingsInvariant (update_player_ratings p ccFetch lcFetch).1
      ∧ posRatings (update_player_ratings p ccFetch lcFetch).1)
    ∧ (ratingsInvariant (update_fide_rating p fideFetch).1
      ∧ posRatings (update_fide_rating p fideFetch).1)
    ∧ ((∀ e, lcFetch ≠ .error e) →
      ratingsInvariant (refresh_ratings p fideFetch ccFetch lcFetch)
      ∧ posRatings (refresh_ratings p fideFetch ccFetch lcFetch)) :=
  ⟨update_player_ratings_preserves hinv hpos hcc hlc,
   update_fide_rating_preserves hinv hpos hfd,
   fun hok => refresh_ratings_preserves hinv hpos hfd hcc hlc hok⟩

theorem ratings_invariant_preserved_witness :
    ratingsInvariant (update_player_ratings demoRefreshPlayer (.ok (some 1200)) (.ok (some 1600))).1
    ∧ ratingsInvariant
        (refresh_ratings demoRefreshPlayer (.ok none) (.ok (some 1200)) (.ok (some 1600))) := by
  have h := ratings_invariant_preserved demoRefreshPlayer (.ok none) (.ok (some 1200))
    (.ok (some 1600)) (by decide) (by decide)
    (fun fd rr hfd => absurd (Except.ok.inj hfd) (by simp))
    (fun v hv => by
      obtain rfl : (1200 : Int) = v := Option.some.inj (Except.ok.inj hv)
      decide)
    (fun v hv => by
      obtain rfl : (1600 : Int) = v := Option.some.inj (Except.ok.inj hv)
      decide)
  exact ⟨(h.1).1, (h.2.2 (fun e he => Except.noConfusion he)).1⟩

/-! ## Claims C7 and C3 — ranking order -/

theorem rankLE_total (p q : Player) : (rankLE p q || rankLE q p) = true := by
  unfold rankLE
  rcases p.highest_rating with _ | a <;> rcases q.highest_rating with _ | b <;>
    simp only [Bool.or_eq_true, Bool.and_eq_true, decide_eq_true_eq,
      Bool.false_eq_true, Bool.true_eq, Bool.or_true, Bool.true_or] <;>
    (first | trivial | omega)

theorem rankLE_trans (a b c : Player) :
    rankLE a b = true → rankLE b c = true → rankLE a c = true := by
  unfold rankLE
  rcases a.highest_rating with _ | x <;> rcases b.highest_rating with _ | y <;>
    rcases c.highest_rating with _ | z <;> intro h1 h2 <;>
    simp only [Bool.or_eq_true, Bool.and_eq_true, decide_eq_true_eq,
      Bool.false_eq_true] at h1 h2 ⊢ <;>
    (first | trivial | omega)

theorem rankLE_antisymm_ids {p q : Player} :
    rankLE p q = true → rankLE q p = true → p.id = q.id := by
  unfold rankLE
  rcases p.highest_rating with _ | a <;> rcases q.highest_rating with _ | b <;>
    intro h1 h2 <;>
    simp only [Bool.or_eq_true, Bool.and_eq_true, decide_eq_true_eq,
      Bool.false_eq_true] at h1 h2 <;>
    omega

theorem length_get_players_by_rating (ps : List Player) :
    (get_players_by_rating ps).length = ps.length := by
  unfold get_players_by_rating
  exact List.length_mergeSort ps

theorem assignIdsFrom_map_id : ∀ (l : List Player) (k : Nat),
    (assignIdsFrom k l).map Player.id = List.range' k l.length
  | [], k => rfl
  | p :: rest, k => by
    rw [List.length_cons, List.range'_succ]
    simp only [assignIdsFrom, List.map_cons]
    rw [assignIdsFrom_map_id rest (k + 1)]

theorem assignIdsFrom_getElem? : ∀ (l : List Player) (k i : Nat),
    (assignIdsFrom k l)[i]? = l[i]?.map (fun p => { p with id := k + i })
  | [], k, i => by simp [assignIdsFrom]
  | p :: rest, k, 0 => by simp [assignIdsFrom]
  | p :: rest, k, i + 1 => by
    simp only [assignIdsFrom, List.getElem?_cons_succ]
    rw [assignIdsFrom_getElem? rest (k + 1) i]
    have h : k + 1 + i = k + (i + 1) := by omega
    rw [h]

/-- Claim C7: after a successful `reassign_ids`, the ids are exactly `1..n`,
assigned positionally along the `get_players_by_rating` order — highest
rating first, nulls last, ties by former id — so ids coincide with dense
1-based ranks. -/
theorem reassign_ids_spec (ps : List Player) :
    ((reassign_ids ps).map Player.id = List.range' 1 ps.length)
    ∧ (∀ i : Nat, (reassign_ids ps)[i]? =
        ((get_players_by_rating ps)[i]?).map (fun p => { p with id := i + 1 }))
    ∧ (get_players_by_rating ps).Perm ps
    ∧ (get_players_by_rating ps).Pairwise (fun a b => rankLE a b = true) := by
  refine ⟨?_, ?_, List.mergeSort_perm ps rankLE,
    List.sorted_mergeSort rankLE_trans rankLE_total ps⟩
  · rw [reassign_ids, assignIdsFrom_map_id, length_get_players_by_rating]
  · intro i
    rw [reassign_ids, assignIdsFrom_getElem?]
    have h : 1 + i = i + 1 := by omega
    rw [h]

/-- Two rankLE-sorted lists that are permutations of each other and have
pairwise-distinct ids are equal: the ordering is total and, on distinct
ids, antisymmetric. -/
theorem sorted_perm_eq : ∀ (l₁ l₂ : List Player), l₁.Perm l₂ →
    l₁.Pairwise (fun a b => rankLE a b = true) →
    l₂.Pairwise (fun a b => rankLE a b = true) →
    (l₁.map Player.id).Nodup → l₁ = l₂
  | [], l₂, hperm, _, _, _ => (hperm.symm.eq_nil).symm
  | a :: t, [], hperm, _, _, _ => List.noConfusion hperm.eq_nil
  | a :: t, b :: t₂, hperm, h1, h2, hnd => by
    have hnd' : a.id ∉ t.map Player.id ∧ (t.map Player.id).Nodup := by
      rw [List.map_cons, List.nodup_cons] at hnd
      exact hnd
    have hab : a = b := by
      by_contra hne
      have hat2 : a ∈ t₂ := by
        have ha : a ∈ b :: t₂ := hperm.mem_iff.mp (List.mem_cons_self a t)
        rcases List.mem_cons.mp ha with h | h
        · exact absurd h hne
        · exact h
      have hbt : b ∈ t := by
        have hb : b ∈ a :: t := hperm.mem_iff.mpr (List.mem_cons_self b t₂)
        rcases List.mem_cons.mp hb with h | h
        · exact absurd h.symm hne
        · exact h
      have hba : rankLE b a = true := (List.pairwise_cons.mp h2).1 a hat2
      have hab' : rankLE a b = true := (List.pairwise_cons.mp h1).1 b hbt
      have hid : a.id = b.id := rankLE_antisymm_ids hab' hba
      exact hnd'.1 (hid ▸ List.mem_map_of_mem Player.id hbt)
    subst hab
    have htl := sorted_perm_eq t t₂ hperm.cons_inv
      (List.pairwise_cons.mp h1).2 (List.pairwise_cons.mp h2).2 hnd'.2
    rw [htl]

theorem pairwise_rankOrder_of_sorted {l : List Player}
    (h : l.Pairwise (fun a b => rankLE a b = true))
    (hnd : (l.map Player.id).Nodup) : l.Pairwise rankOrder := by
  have hne : l.Pairwise (fun a b => a.id ≠ b.id) := List.pairwise_map.mp hnd
  refine (h.and hne).imp ?_
  intro a b hh
  unfold rankLE at hh
  unfold rankOrder
  revert hh
  rcases a.highest_rating with _ | x <;> rcases b.highest_rating with _ | y <;>
    intro hh <;>
    obtain ⟨hle, hne'⟩ := hh <;>
    simp only [Bool.or_eq_true, Bool.and_eq_true, decide_eq_true_eq,
      Bool.false_eq_true] at hle ⊢ <;>
    (first | trivial | omega)

/-- Claim C3: `get_players_by_rating` returns a permutation of the stored
players, sorted strictly descending by `highest_rating` with nulls last and
ties (or two nulls) in ascending id order; with distinct ids the result is a
deterministic function of the player set — any reordering of the input
sorts to the same list. -/
theorem get_players_by_rating_spec (ps : List Player)
    (hnd : (ps.map Player.id).Nodup) :
    (get_players_by_rating ps).Perm ps
    ∧ (get_players_by_rating ps).Pairwise rankOrder
    ∧ (∀ qs : List Player, qs.Perm ps →
        get_players_by_rating qs = get_players_by_rating ps) := by
  have hperm : (get_players_by_rating ps).Perm ps := List.mergeSort_perm ps rankLE
  have hsort : (get_players_by_rating ps).Pairwise (fun a b => rankLE a b = true) :=
    List.sorted_mergeSort rankLE_trans rankLE_total ps
  have hndsorted : ((get_players_by_rating ps).map Player.id).Nodup :=
    ((hperm.map Player.id).nodup_iff).mpr hnd
  refine ⟨hperm, pairwise_rankOrder_of_sorted hsort hndsorted, ?_⟩
  intro qs hqs
  have hperm2 : (get_players_by_rating qs).Perm (get_players_by_rating ps) :=
    ((List.mergeSort_perm qs rankLE).trans hqs).trans hperm.symm
  have hsort2 : (get_players_by_rating qs).Pairwise (fun a b => rankLE a b = true) :=
    List.sorted_mergeSort rankLE_trans rankLE_total qs
  have hnd2 : ((get_players_by_rating qs).map Player.id).Nodup :=
    (((List.mergeSort_perm qs rankLE).trans hqs).map Player.id).nodup_iff.mpr hnd
  exact sorted_perm_eq (get_players_by_rating qs) (get_players_by_rating ps)
    hperm2 hsort2 hsort hnd2

theorem get_players_by_rating_spec_witness :
    (get_players_by_rating [demoBob, demoCarol]).Perm [demoBob, demoCarol]
    ∧ (get_players_by_rating [demoBob, demoCarol]).Pairwise rankOrder
    ∧ (∀ qs : List Player, qs.Perm [demoBob, demoCarol] →
        get_players_by_rating qs = get_players_by_rating [demoBob, demoCarol]) :=
  get_players_by_rating_spec [demoBob, demoCarol] (by decide)


/-! ## Claim C10 — `sync_sheet_data` -/

theorem rowPlayer_name_ne {row : List String} {r : String × Option Int}
    (h : rowPlayer row = some r) : r.1 ≠ "" := by
  unfold rowPlayer at h
  rcases row with _ | ⟨c0, rest⟩
  · exact Option.noConfusion h
  · dsimp only at h
    split at h
    next => exact Option.noConfusion h
    next fid heq =>
      split_ifs at h with h0 hstrip
      all_goals first
        | exact Option.noConfusion h
        | (cases Option.some.inj h; assumption)

theorem assignIdsFrom_map_fields {β : Type} (f : Player → β)
    (hf : ∀ p k, f { p with id := k } = f p) :
    ∀ (l : List Player) (k : Nat), (assignIdsFrom k l).map f = l.map f
  | [], _ => rfl
  | p :: rest, k => by
    simp only [assignIdsFrom, List.map_cons, hf]
    rw [assignIdsFrom_map_fields f hf rest (k + 1)]

/-- Claim C10 is false as stated: the sheet row `["Alice", "abc"]` is a named
row, but `int("abc")` raises `ValueError` inside `get_sheet_data` and the row
is skipped, so after a successful sync the stored set is exactly `["Bob"]` —
not all named rows of the sheet. -/
theorem sync_sheet_data_named_rows_cex :
    (sync_sheet_data [] demoSheet false).1
        = .ok { success_count := 1, error_count := 0, total_rows := 1 }
    ∧ demoSheet[2]? = some ["Alice", "abc"]
    ∧ (sync_sheet_data [] demoSheet false).2.map Player.name = ["Bob"]
    ∧ "Alice" ∉ (sync_sheet_data [] demoSheet false).2.map Player.name := by
  refine ⟨rfl, rfl, rfl, by decide⟩

/-- Claim C10 (amended): `sync_sheet_data` replaces the whole stored player
set on success — every pre-existing player is deleted and exactly the
post-header sheet rows whose stripped name cell is non-empty *and* whose
FIDE cell is empty or parses as an integer are inserted (a named row with an
unparseable FIDE cell is skipped); when the parsed data is empty an HTTP 400
is raised, and on a database error during the import the transaction is
rolled back and an HTTP 500 raised — in both error cases the pre-existing
player set is unchanged. -/
theorem sync_sheet_data_spec (dbp : List Player) (values : List (List String))
    (txnFails : Bool) :
    (get_sheet_rows values = [] →
      sync_sheet_data dbp values txnFails
        = (.error (400, "No data found in Google Sheet"), dbp))
    ∧ (get_sheet_rows values ≠ [] → txnFails = true →
      sync_sheet_data dbp values txnFails
        = (.error (500, "Failed to sync data from Google Sheet"), dbp))
    ∧ (get_sheet_rows values ≠ [] → txnFails = false →
      sync_sheet_data dbp values txnFails
        = (.ok { success_count := (get_sheet_rows values).length,
                 error_count := 0,
                 total_rows := (get_sheet_rows values).length },
           assignIdsFrom 1 ((get_sheet_rows values).map (fun r => mkSheetPlayer r.1 r.2)))
      ∧ (sync_sheet_data dbp values txnFails).2.map (fun p => (p.name, p.fide_id))
          = get_sheet_rows values) := by
  have hnames : ∀ r ∈ get_sheet_rows values, r.1 ≠ "" := by
    intro r hr
    unfold get_sheet_rows at hr
    rcases values with _ | ⟨hd, rest⟩
    · exact absurd hr (List.not_mem_nil r)
    · obtain ⟨row, _, hrow⟩ := List.mem_filterMap.mp hr
      exact rowPlayer_name_ne hrow
  have hkept : (get_sheet_rows values).filter (fun r => r.1 != "")
      = get_sheet_rows values :=
    List.filter_eq_self.mpr (fun r hr => by simpa using hnames r hr)
  have herr : (get_sheet_rows values).filter (fun r => r.1 == "") = [] := by
    rw [List.filter_eq_nil_iff]
    intro r hr
    simpa using hnames r hr
  refine ⟨?_, ?_, ?_⟩
  · intro hempty
    unfold sync_sheet_data
    rw [hempty]
    rfl
  · intro hne htxn
    unfold sync_sheet_data
    rw [htxn, if_neg (by simpa [List.isEmpty_iff] using hne)]
    rfl
  · intro hne htxn
    subst htxn
    have heq : sync_sheet_data dbp values false
        = (.ok { success_count := (get_sheet_rows values).length,
                 error_count := 0,
                 total_rows := (get_sheet_rows values).length },
           assignIdsFrom 1 ((get_sheet_rows values).map (fun r => mkSheetPlayer r.1 r.2))) := by
      unfold sync_sheet_data
      rw [if_neg (by simpa [List.isEmpty_iff] using hne), if_neg (by simp)]
      rw [hkept, herr]
      rfl
    refine ⟨heq, ?_⟩
    rw [heq]
    show (assignIdsFrom 1 ((get_sheet_rows values).map (fun r => mkSheetPlayer r.1 r.2))).map
        (fun p => (p.name, p.fide_id)) = get_sheet_rows values
    rw [assignIdsFrom_map_fields (fun p => (p.name, p.fide_id)) (fun p k => rfl)]
    have hcomp : ((fun p : Player => (p.name, p.fide_id))
        ∘ (fun r : String × Option Int => mkSheetPlayer r.1 r.2)) = id :=
      funext (fun r => rfl)
    rw [List.map_map, hcomp, List.map_id]

theorem sync_sheet_data_spec_witness :
    sync_sheet_data [demoBob] demoSheet false
      = (.ok { success_count := 1, error_count := 0, total_rows := 1 },
         assignIdsFrom 1 ((get_sheet_rows demoSheet).map (fun r => mkSheetPlayer r.1 r.2)))
    ∧ (sync_sheet_data [demoBob] demoSheet false).2.map (fun p => (p.name, p.fide_id))
        = get_sheet_rows demoSheet := by
  have h := (sync_sheet_data_spec [demoBob] demoSheet false).2.2 (by decide) rfl
  exact ⟨by rw [h.1]; rfl, h.2⟩


/-! ## Claims C5 and C6 — `create_player` -/

theorem idFields_recomputeHighest (p : Player) :
    idFields (recomputeHighest p) = idFields p := by
  unfold recomputeHighest
  split <;> rfl

theorem idFields_recomputeHighestPos (p : Player) :
    idFields (recomputeHighestPos p) = idFields p := by
  unfold recomputeHighestPos
  split <;> rfl

theorem update_fide_rating_error (p : Player) (e : Unit) :
    update_fide_rating p (.error e) = (p, false) := by
  unfold update_fide_rating
  split_ifs <;> rfl

theorem platformBranch_error (u : Option String) (e : Unit) (old : Option Int) :
    platformBranch u (.error e) old = old := by
  unfold platformBranch
  split_ifs <;> rfl

theorem update_player_ratings_error (p : Player) (e1 e2 : Unit) :
    update_player_ratings p (.error e1) (.error e2) = (recomputeHighest p, true) := by
  rw [update_player_ratings_eq, platformBranch_error, platformBranch_error]

theorem idFields_update_fide_rating (p : Player) (f : Except Unit (Option FideData)) :
    idFields (update_fide_rating p f).1 = idFields p := by
  unfold update_fide_rating
  rcases f with e | (_ | fd) <;> split_ifs <;> dsimp only <;>
    first
      | rfl
      | (split
         · rfl
         · split_ifs
           · rfl
           · rw [idFields_recomputeHighestPos])
      | (split
         · rfl
         · split_ifs
           · rfl
           · (rw [idFields_recomputeHighestPos]; rfl))

theorem idFields_update_player_ratings (p : Player) (c l : Except Unit (Option Int)) :
    idFields (update_player_ratings p c l).1 = idFields p := by
  rw [update_player_ratings_eq]
  dsimp only
  rw [idFields_recomputeHighest]
  rfl

/-- The rating-update phase never touches the submitted identity fields. -/
theorem idFields_createdPlayer (dbp : List Player) (inp : Player)
    (ff : Except Unit (Option FideData)) (cf lf : Except Unit (Option Int)) :
    idFields (createdPlayer dbp inp ff cf lf)
      = (inp.name, inp.fide_id, inp.chesscom_username, inp.lichess_username) := by
  unfold createdPlayer
  dsimp only
  set p1 := (if intTruthy (freshPlayer dbp inp).fide_id
    then (update_fide_rating (freshPlayer dbp inp) ff).1
    else freshPlayer dbp inp) with hp1
  have e1 : idFields p1 = idFields (freshPlayer dbp inp) := by
    rw [hp1]
    split_ifs
    · exact idFields_update_fide_rating _ _
    · rfl
  split_ifs with h
  · rw [idFields_update_player_ratings, e1]
    rfl
  · rw [e1]
    rfl

/-- With every provider call raising, the rating-update phase of
`create_player` leaves the fresh player untouched: all ratings stay null. -/
theorem createdPlayer_all_fail (dbp : List Player) (inp : Player) :
    createdPlayer dbp inp (.error ()) (.error ()) (.error ()) = freshPlayer dbp inp := by
  unfold createdPlayer
  dsimp only
  have h1 : (if intTruthy (freshPlayer dbp inp).fide_id
      then (update_fide_rating (freshPlayer dbp inp) (.error ())).1
      else freshPlayer dbp inp) = freshPlayer dbp inp := by
    split_ifs
    · rw [update_fide_rating_error]
    · rfl
  rw [h1]
  split_ifs with h
  · rw [update_player_ratings_error]
    show recomputeHighest (freshPlayer dbp inp) = freshPlayer dbp inp
    exact recomputeHighest_eq_of_nil rfl
  · rfl

/-- Every member of a `Nat` list is bounded by its `foldr max 0`. -/
theorem le_foldr_max {x : Nat} : ∀ {l : List Nat}, x ∈ l → x ≤ l.foldr max 0 := by
  intro l
  induction l with
  | nil => intro h; cases h
  | cons a t ih =>
    intro h
    rw [List.foldr_cons]
    rcases List.mem_cons.mp h with rfl | h2
    · exact le_max_left _ _
    · exact le_trans (ih h2) (le_max_right _ _)

/-- The flushed temporary id `max stored id + 1` exceeds every stored id. -/
theorem id_lt_freshPlayer_id (dbp : List Player) (inp : Player) :
    ∀ q ∈ dbp, q.id < (freshPlayer dbp inp).id := by
  intro q hq
  show q.id < (dbp.map Player.id).foldr max 0 + 1
  exact Nat.lt_succ_of_le (le_foldr_max (List.mem_map_of_mem Player.id hq))

/-- The insertion rank never exceeds `len(players)` — the stored players
plus the flushed row — because the rank loop skips the new player's own id. -/
theorem newRank_le (dbp : List Player) (p2 : Player) :
    newRank dbp p2 ≤ dbp.length + 1 := by
  unfold newRank
  have hperm : (get_players_by_rating (dbp ++ [p2])).Perm (dbp ++ [p2]) :=
    List.mergeSort_perm (dbp ++ [p2]) rankLE
  have hc := (hperm.filter (fun q => decide (q.id ≠ p2.id) && strictlyAbove q p2)).length_eq
  rw [hc, List.filter_append]
  have h2 : List.filter (fun q => decide (q.id ≠ p2.id) && strictlyAbove q p2) [p2] = [] := by
    simp [List.filter_singleton]
  rw [h2, List.append_nil]
  have h3 := List.length_filter_le (fun q => decide (q.id ≠ p2.id) && strictlyAbove q p2) dbp
  omega

/-- When every stored id is below the new rank, the id-shift `UPDATE`
matches no row: it succeeds and changes nothing. -/
theorem shiftIds_ok_of_lt {k : Nat} {dbp : List Player}
    (h : ∀ q ∈ dbp, q.id < k) : shiftIds k dbp = .ok dbp := by
  have hany : dbp.any (fun q => decide (k ≤ q.id)) = false := by
    simp only [List.any_eq_false, decide_eq_true_eq]
    intro q hq
    exact Nat.not_le.mpr (h q hq)
  have hmap : ∀ (l : List Player), (∀ q ∈ l, q.id < k) →
      l.map (fun q => if k ≤ q.id then { q with id := q.id + 1 } else q) = l := by
    intro l
    induction l with
    | nil => intro _; rfl
    | cons a t ih =>
      intro hl
      simp only [List.map_cons]
      rw [if_neg (Nat.not_le.mpr (hl a (List.mem_cons_self a t))),
        ih (fun q hq => hl q (List.mem_cons_of_mem a hq))]
  unfold shiftIds
  split_ifs with hg hm
  · rw [hany] at hm
    exact absurd hm (by decide)
  · rw [hmap dbp h]
  · rfl

/-- When some stored id reaches the new rank (and the source guard
`new_rank <= len(players)` holds), the id-shift `UPDATE` matches that row
and deterministically raises the primary-key violation. -/
theorem shiftIds_error_of_ge {k : Nat} {dbp : List Player} {q : Player}
    (hg : k ≤ dbp.length + 1) (hq : q ∈ dbp) (hk : k ≤ q.id) :
    shiftIds k dbp = .error "UNIQUE constraint failed: players.id" := by
  unfold shiftIds
  rw [if_pos hg, if_pos (List.any_eq_true.mpr ⟨q, hq, by simpa using hk⟩)]

/-- A successful id shift changes only ids. -/
theorem shiftIds_ok_map_idFields {k : Nat} {dbp l : List Player}
    (h : shiftIds k dbp = .ok l) : l.map idFields = dbp.map idFields := by
  unfold shiftIds at h
  split_ifs at h with hg hm
  · rw [← Except.ok.inj h, List.map_map]
    congr 1
    funext q
    show idFields (if k ≤ q.id then { q with id := q.id + 1 } else q) = idFields q
    split_ifs <;> rfl
  · rw [← Except.ok.inj h]

/-- Consequence of all four duplicate checks passing: every stored player's
identity fields differ from the submitted ones wherever both are present. -/
theorem dupCheck_none_distinct {dbp : List Player} {inp : Player}
    (hdc : dupCheck dbp inp = none) (hval : validatedCreate inp = true) :
    ∀ q ∈ dbp, fieldsDistinct (idFields q)
      (inp.name, inp.fide_id, inp.chesscom_username, inp.lichess_username) := by
  intro q hq
  unfold dupCheck at hdc
  split_ifs at hdc with h1 h2 h3 h4
  simp only [Bool.and_eq_true, List.any_eq_true, beq_iff_eq, not_and, not_exists] at h1 h2 h3 h4
  unfold validatedCreate at hval
  simp only [Bool.and_eq_true, bne_iff_ne, ne_eq] at hval
  unfold fieldsDistinct idFields
  dsimp only
  refine ⟨fun heq => h4 q hq heq, ?_, ?_, ?_⟩
  · by_cases hnone : inp.fide_id = none
    · rw [hnone]
      rcases q.fide_id with _ | m
      · exact .inl rfl
      · exact .inr (by simp)
    · refine .inr ?_
      intro heq
      have htr : intTruthy inp.fide_id = true := by
        rcases hif : inp.fide_id with _ | n
        · exact absurd hif hnone
        · have hval1 := hval.1
          rw [hif] at hval1
          simp only [Bool.and_eq_true, decide_eq_true_eq] at hval1
          simp only [intTruthy, bne_iff_ne, ne_eq]
          omega
      exact h1 htr q hq heq
  · by_cases hnone : inp.chesscom_username = none
    · rw [hnone]
      rcases q.chesscom_username with _ | m
      · exact .inl rfl
      · exact .inr (by simp)
    · refine .inr ?_
      intro heq
      have htr : strTruthy inp.chesscom_username = true := by
        rcases hic : inp.chesscom_username with _ | s
        · exact absurd hic hnone
        · have hv := hval.1.2
          rw [hic] at hv
          simp only [strTruthy, bne_iff_ne, ne_eq]
          intro hcon
          exact hv (by rw [hcon])
      exact h2 htr q hq heq
  · by_cases hnone : inp.lichess_username = none
    · rw [hnone]
      rcases q.lichess_username with _ | m
      · exact .inl rfl
      · exact .inr (by simp)
    · refine .inr ?_
      intro heq
      have htr : strTruthy inp.lichess_username = true := by
        rcases hil : inp.lichess_username with _ | s
        · exact absurd hil hnone
        · have hv := hval.2
          rw [hil] at hv
          simp only [strTruthy, bne_iff_ne, ne_eq]
          intro hcon
          exact hv (by rw [hcon])
      exact h3 htr q hq heq

/-- A successful `create_player` carries the submitted identity fields on
the new player, appends it after the (id-shifted) stored players, and
implies every duplicate check passed. -/
theorem create_player_ok_shape {dbp : List Player} {inp : Player}
    {ff : Except Unit (Option FideData)} {cf lf : Except Unit (Option Int)}
    {pfin : Player} {st : List Player}
    (h : create_player dbp inp ff cf lf = (.ok pfin, st)) :
    idFields pfin = (inp.name, inp.fide_id, inp.chesscom_username, inp.lichess_username)
    ∧ (∃ dbp', st = dbp' ++ [pfin] ∧ dbp'.map idFields = dbp.map idFields)
    ∧ dupCheck dbp inp = none := by
  unfold create_player at h
  by_cases hid : hasIdentifier inp = true
  swap
  · rw [if_pos (by simpa using hid)] at h
    exact absurd (congrArg Prod.fst h) (by simp)
  rw [if_neg (by simpa using hid)] at h
  cases hdc : dupCheck dbp inp with
  | some d =>
    rw [hdc] at h
    exact absurd (congrArg Prod.fst h) (by simp)
  | none =>
    rw [hdc] at h
    dsimp only at h
    cases hsh : shiftIds (newRank dbp (createdPlayer dbp inp ff cf lf)) dbp with
    | error e =>
      rw [hsh] at h
      exact absurd (congrArg Prod.fst h) (by simp)
    | ok shifted =>
      rw [hsh] at h
      dsimp only at h
      have hfst := congrArg Prod.fst h
      have hsnd := congrArg Prod.snd h
      dsimp only at hfst hsnd
      have hpf := Except.ok.inj hfst
      refine ⟨?_, ⟨shifted, ?_, shiftIds_ok_map_idFields hsh⟩, rfl⟩
      · rw [← hpf]
        exact idFields_createdPlayer dbp inp ff cf lf
      · rw [← hsnd, hpf]

/-- Claim C6: `create_player` rejects with HTTP 400 any submission whose
(non-null) FIDE ID, Chess.com username, Lichess username, or display name
matches a stored player's, leaving the stored set unchanged; consequently a
successful creation preserves pairwise distinctness of those four fields. -/
theorem create_player_uniqueness (dbp : List Player) (inp : Player)
    (ff : Except Unit (Option FideData)) (cf lf : Except Unit (Option Int))
    (hval : validatedCreate inp = true) :
    (duplicateWith dbp inp →
      ∃ d, create_player dbp inp ff cf lf = (.error (400, d), dbp))
    ∧ (uniqueFields dbp → ∀ pfin st, create_player dbp inp ff cf lf = (.ok pfin, st) →
        uniqueFields st) := by
  constructor
  · intro hdup
    by_cases hid : hasIdentifier inp = true
    · cases hdc : dupCheck dbp inp with
      | some d =>
        refine ⟨d, ?_⟩
        unfold create_player
        rw [if_neg (by simpa using hid), hdc]
      | none =>
        exfalso
        have hdist := dupCheck_none_distinct hdc hval
        rcases hdup with ⟨q, hq, hne, heq⟩ | ⟨q, hq, hne, heq⟩ | ⟨q, hq, hne, heq⟩ | ⟨q, hq, heq⟩
        · have hd := hdist q hq
          unfold fieldsDistinct idFields at hd
          dsimp only at hd
          rcases hd.2.1 with h | h
          · exact hne (by rw [← heq, h])
          · exact h heq
        · have hd := hdist q hq
          unfold fieldsDistinct idFields at hd
          dsimp only at hd
          rcases hd.2.2.1 with h | h
          · exact hne (by rw [← heq, h])
          · exact h heq
        · have hd := hdist q hq
          unfold fieldsDistinct idFields at hd
          dsimp only at hd
          rcases hd.2.2.2 with h | h
          · exact hne (by rw [← heq, h])
          · exact h heq
        · have hd := hdist q hq
          unfold fieldsDistinct idFields at hd
          dsimp only at hd
          exact hd.1 heq
    · refine ⟨"At least one identifier (FIDE ID, Chess.com username, or Lichess username) is required", ?_⟩
      unfold create_player
      rw [if_pos (by simpa using hid)]
  · intro huniq pfin st hok
    obtain ⟨hpf, ⟨dbp', hst, hmap⟩, hdc⟩ := create_player_ok_shape hok
    subst hst
    unfold uniqueFields
    rw [List.pairwise_append]
    refine ⟨?_, List.pairwise_singleton _ _, ?_⟩
    · have h1 : (dbp'.map idFields).Pairwise fieldsDistinct := by
        rw [hmap]
        exact List.pairwise_map.mpr huniq
      exact List.pairwise_map.mp h1
    · intro a ha b hb
      rw [List.mem_singleton] at hb
      subst hb
      rw [hpf]
      have hmem : idFields a ∈ dbp.map idFields := by
        rw [← hmap]
        exact List.mem_map_of_mem idFields ha
      obtain ⟨q, hq, hqf⟩ := List.mem_map.mp hmem
      rw [← hqf]
      exact dupCheck_none_distinct hdc hval q hq

theorem create_player_uniqueness_witness :
    validatedCreate demoBobDup = true
    ∧ (∃ d, create_player [demoBob] demoBobDup (.error ()) (.error ()) (.error ())
        = (.error (400, d), [demoBob])) := by
  refine ⟨by decide, ?_⟩
  exact (create_player_uniqueness [demoBob] demoBobDup (.error ()) (.error ()) (.error ())
    (by decide)).1 (.inr (.inr (.inr ⟨demoBob, List.mem_singleton.mpr rfl, rfl⟩)))

unseal List.merge List.mergeSort in
/-- Claim C5 is false as stated: a creation whose only identifier's rating
fetch raises (retries exhausted) does not surface an error — the exceptions
are swallowed inside `update_player_ratings`/`update_fide_rating`, and the
player is created with all ratings null. -/
theorem create_player_fetch_failure_cex :
    (create_player [] demoAlice (.error ()) (.error ()) (.error ())).1
      = .ok { id := 1, name := "Alice", fide_id := none,
              chesscom_username := some "alice1", lichess_username := none } := by
  decide

/-- Claim C5 (amended): rating-fetch failures after exhausted retries are
treated as missing data and never surface as an error: with every provider
call raising, `create_player` on a valid, non-duplicate submission
completes and stores the player with all ratings null whenever the id-shift
`UPDATE` matches no stored row (every stored id below the new rank — e.g.
an empty store); when some stored id reaches the new rank the endpoint does
return HTTP 400 with the store unchanged, but from the id shift's
primary-key violation (`UNIQUE constraint failed: players.id`), not from
the fetch failure.  Outside creation, `update_player_ratings` completes
(returning `True`, only recomputing `highest_rating`) and
`update_fide_rating` returns `False` leaving the player unchanged. -/
theorem fetch_failures_treated_as_missing (dbp : List Player) (inp : Player)
    (hid : hasIdentifier inp = true) (hdc : dupCheck dbp inp = none) :
    ((∀ q ∈ dbp, q.id < newRank dbp (freshPlayer dbp inp)) →
      ∃ pfin st, create_player dbp inp (.error ()) (.error ()) (.error ()) = (.ok pfin, st)
        ∧ pfin.name = inp.name ∧ pfin.fide_rating = none ∧ pfin.chesscom_rating = none
        ∧ pfin.lichess_rating = none ∧ pfin.highest_rating = none)
    ∧ ((∃ q ∈ dbp, newRank dbp (freshPlayer dbp inp) ≤ q.id) →
      create_player dbp inp (.error ()) (.error ()) (.error ())
        = (.error (400, "UNIQUE constraint failed: players.id"), dbp))
    ∧ (∀ q : Player, update_player_ratings q (.error ()) (.error ())
        = (recomputeHighest q, true)
      ∧ update_fide_rating q (.error ()) = (q, false)) := by
  refine ⟨?_, ?_, ?_⟩
  · intro hlt
    have hcp : create_player dbp inp (.error ()) (.error ()) (.error ())
        = (.ok { freshPlayer dbp inp with id := newRank dbp (freshPlayer dbp inp) },
           dbp ++ [{ freshPlayer dbp inp with id := newRank dbp (freshPlayer dbp inp) }]) := by
      unfold create_player
      rw [if_neg (by simpa using hid), hdc]
      dsimp only
      rw [createdPlayer_all_fail, shiftIds_ok_of_lt hlt]
    exact ⟨_, _, hcp, rfl, rfl, rfl, rfl, rfl⟩
  · rintro ⟨q, hq, hk⟩
    unfold create_player
    rw [if_neg (by simpa using hid), hdc]
    dsimp only
    rw [createdPlayer_all_fail,
      shiftIds_error_of_ge (newRank_le dbp (freshPlayer dbp inp)) hq hk]
  · intro q
    exact ⟨update_player_ratings_error q () (), update_fide_rating_error q ()⟩

unseal List.merge List.mergeSort in
theorem fetch_failures_treated_as_missing_witness :
    (∃ pfin st, create_player [] demoAlice (.error ()) (.error ()) (.error ())
        = (.ok pfin, st)
      ∧ pfin.name = demoAlice.name ∧ pfin.fide_rating = none
      ∧ pfin.chesscom_rating = none ∧ pfin.lichess_rating = none
      ∧ pfin.highest_rating = none)
    ∧ create_player [demoDana] demoAlice (.error ()) (.error ()) (.error ())
        = (.error (400, "UNIQUE constraint failed: players.id"), [demoDana]) := by
  constructor
  · exact (fetch_failures_treated_as_missing [] demoAlice (by decide) rfl).1
      (fun q hq => absurd hq (List.not_mem_nil q))
  · exact (fetch_failures_treated_as_missing [demoDana] demoAlice (by decide) (by decide)).2.1
      ⟨demoDana, List.mem_singleton.mpr rfl, by decide⟩


end DUCC
